import Mathlib

/-!
Verification development for the bulk PDF fill pipeline
(`pdfGenerator.js` and `bulkPdfService.js`).

The JavaScript source is shallowly embedded: strings are `List Char`,
JavaScript numbers are modelled as exact rationals `ℚ` (the source only
performs arithmetic whose claims are stated mathematically; no claim
depends on binary floating-point rounding), fallible code returns
`Except`, and the I/O collaborators of the orchestrator (pdf-lib loading,
font encoding, image embedding, archive writing) are abstracted into a
`RenderEnv` record of oracles, since they live outside the repository.
-/

namespace BulkPdf

/-- JavaScript scalar values as they occur in parsed CSV/JSON records and
field descriptors: strings, numbers, booleans, `null`, and `undefined`
(the latter also standing for an absent object key). -/
inductive JSValue where
  | str (s : List Char)
  | num (q : ℚ)
  | boolean (b : Bool)
  | null
  | undefined
deriving DecidableEq, Repr

/-- JavaScript truthiness: `''`, `0`, `false`, `null`, `undefined` are
falsy, everything else truthy. -/
def JSValue.truthy : JSValue → Bool
  | .str s => !s.isEmpty
  | .num q => q != 0
  | .boolean b => b
  | .null => false
  | .undefined => false

/-- Character class of the JavaScript `\s` regex class and of
`String.prototype.trim`: ASCII whitespace plus no-break space (the
further exotic Unicode space code points never occur in the inputs the
repository feeds through these functions). -/
def isJsSpace (c : Char) : Bool :=
  c = ' ' ∨ c = '\t' ∨ c = '\n' ∨ c = '\r' ∨ c = '\x0c' ∨ c = '\x0b' ∨ c = ' '

/-- JavaScript `String.prototype.trim`: strip leading and trailing
whitespace. -/
def jsTrim (s : List Char) : List Char :=
  ((s.dropWhile isJsSpace).reverse.dropWhile isJsSpace).reverse

/-- Decimal digit list of a natural number, as JavaScript template
literals print one. -/
def natToDec (n : Nat) : List Char :=
  Nat.toDigits 10 n

/-- Decimal digit list of an integer, as JavaScript prints one. -/
def intToDec (i : Int) : List Char :=
  if i < 0 then '-' :: natToDec i.natAbs else natToDec i.natAbs

/-- Numeric value of a list of decimal digits. -/
def digitsVal (l : List Char) : Nat :=
  l.foldl (fun a c => 10 * a + (c.toNat - '0'.toNat)) 0

/-- JavaScript `parseInt(s, 10)`: skip leading whitespace, consume an
optional sign, then the maximal run of leading decimal digits; `none`
models `NaN` (no digits found). -/
def parseIntJS (s : List Char) : Option Int :=
  let s1 := s.dropWhile isJsSpace
  let signAndRest : Bool × List Char :=
    match s1 with
    | '-' :: rest => (true, rest)
    | '+' :: rest => (false, rest)
    | _ => (false, s1)
  let digits := signAndRest.2.takeWhile Char.isDigit
  if digits.isEmpty then none
  else some ((if signAndRest.1 then -1 else 1) * (digitsVal digits : Int))

/-- JavaScript `String(v)` for the scalar values that can reach it in
this code base. Non-integer numbers are printed as `num/den`; the exact
double-to-decimal formatting of JavaScript is not modelled because no
function under verification ever stringifies a non-integer number. -/
def jsString : JSValue → List Char
  | .str s => s
  | .boolean b => if b then ("true".data) else ("false".data)
  | .num q => if q.den = 1 then intToDec q.num
              else intToDec q.num ++ '/' :: natToDec q.den
  | .null => "null".data
  | .undefined => "undefined".data

/-- JavaScript `String(v || '')` as used by the drawing helpers. -/
def jsToDisplayString (v : JSValue) : List Char :=
  if v.truthy then jsString v else []

/-- JavaScript `s.split(c)` for a single-character separator:
`"".split(':') = [""]`, `":x".split(':') = ["", "x"]`, and so on. -/
def splitOnChar (c : Char) : List Char → List (List Char)
  | [] => [[]]
  | x :: xs =>
    if x = c then [] :: splitOnChar c xs
    else
      match splitOnChar c xs with
      | [] => [[x]]
      | hd :: tl => (x :: hd) :: tl

/-- JavaScript `s.replace(pat, rep)` with a global fixed-string pattern: left-to-right,
non-overlapping, the replacement is not rescanned. -/
def replaceAll (pat rep : List Char) : List Char → List Char
  | [] => []
  | c :: cs =>
    if h : ¬pat.isEmpty ∧ pat <+: (c :: cs) then
      rep ++ replaceAll pat rep ((c :: cs).drop pat.length)
    else
      c :: replaceAll pat rep cs
termination_by s => s.length
decreasing_by
  · simp only [List.length_drop, List.length_cons]
    have hp : 1 ≤ pat.length := by
      cases pat with
      | nil => simp at h
      | cons p ps => simp
    omega
  · simp

/-! ## String similarity (`stringSimilarity` in bulkPdfService.js) -/

/-- The normalization both arguments of `stringSimilarity` undergo:
`s.toLowerCase().replace(/[_\-\s]/g, '')` — lower-case, then strip
underscores, hyphens and whitespace. -/
def normalize (s : List Char) : List Char :=
  (s.map Char.toLower).filter (fun c => !(c = '_' ∨ c = '-' ∨ isJsSpace c))

/-- Classic unit-cost insertion/deletion/substitution edit distance, as
the specification describes it. This is the specification-side
definition; the source builds a dynamic-programming matrix instead
(`levCell` below) and the two are proved to agree. -/
def editDistance : List Char → List Char → Nat
  | [], ys => ys.length
  | x :: xs, [] => (x :: xs).length
  | x :: xs, y :: ys =>
    if x = y then editDistance xs ys
    else 1 + min (min (editDistance xs ys) (editDistance (x :: xs) ys))
                 (editDistance xs (y :: ys))
termination_by xs ys => xs.length + ys.length

/-- Cell `matrix[i][j]` of the Levenshtein matrix that `stringSimilarity`
fills: row index `i` runs over `b`, column index `j` over `a`;
`matrix[0][j] = j`, `matrix[i][0] = i`, and the interior cell compares
`b.charAt(i-1)` with `a.charAt(j-1)` and takes
`min(diagonal, left, up) + 1` on mismatch. -/
def levCell (a b : List Char) : Nat → Nat → Nat
  | 0, j => j
  | i + 1, 0 => i + 1
  | i + 1, j + 1 =>
    if b.get? i = a.get? j then levCell a b i j
    else min (min (levCell a b i j) (levCell a b i (j + 1)))
             (levCell a b (i + 1) j) + 1
termination_by i j => i + j

/-- The function `stringSimilarity(a, b)` of bulkPdfService.js: normalize both
strings; identical ⇒ 1; one contained in the other ⇒ 0.8; otherwise
`(maxLen - matrix[b.length][a.length]) / maxLen` from the Levenshtein
matrix (guarded by `maxLen === 0 ? 1`). Scores are exact rationals. -/
def stringSimilarity (a0 b0 : List Char) : ℚ :=
  let a := normalize a0
  let b := normalize b0
  if a = b then 1
  else if b <:+: a ∨ a <:+: b then 0.8
  else
    let maxLen := max a.length b.length
    if maxLen = 0 then 1
    else ((maxLen : ℚ) - (levCell a b b.length a.length : ℚ)) / (maxLen : ℚ)

/-- The similarity metric exactly as the specification words it: score 1
on identical normalized forms, 0.8 on substring containment, otherwise
`1 - editDistance / max(len_a, len_b)` with the classic edit distance,
and 1 when both normalize to empty. Specification-side definition used
to state the refinement. -/
def specSimilarity (a0 b0 : List Char) : ℚ :=
  let a := normalize a0
  let b := normalize b0
  if a = b then 1
  else if b <:+: a ∨ a <:+: b then 0.8
  else 1 - (editDistance a b : ℚ) / (max a.length b.length : ℚ)

/-! ## Field descriptors and records -/

/-- The field types dispatched on by `generateFilledPDF`'s switch; a tag
not handled by any case falls through and draws nothing. -/
inductive FieldType where
  | text
  | number
  | date
  | day
  | time
  | textarea
  | checkbox
  | dropdown
  | signature
  | unknownType (tag : List Char)
deriving DecidableEq, Repr

/-- A field descriptor as stored in a template's `.fields.json` and
consumed by the generator: name, type, 1-based page, box geometry in
PDF coordinates, and the current value (the pre-set default before
`applyDataToFields`, the filled value after). A missing numeric `page`
behaves like the falsy 0 under `field.page || 1`. -/
structure Field where
  name : List Char
  type : FieldType
  page : Int := 1
  x : ℚ := 0
  y : ℚ := 0
  width : ℚ := 0
  height : ℚ := 0
  value : JSValue := .undefined
deriving DecidableEq, Repr

/-- One parsed CSV/JSON row: column name to scalar value. -/
def Record := List (List Char × JSValue)

/-- JavaScript property read `row[key]`: `undefined` when absent. -/
def Record.getJS (r : Record) (k : List Char) : JSValue :=
  match List.lookup k r with
  | some v => v
  | none => .undefined

/-! ## pdfGenerator.js: field drawing -/

/-- The function `formatTime` of pdfGenerator.js: `""` for falsy input; inputs already
containing an `m`/`M` pass through; split on `:`; a missing or empty
hours/minutes part passes the input through; otherwise
`parseInt(hours, 10)` (`none` = `NaN`, in which case `h >= 12` is false
and `NaN % 12 || 12` yields 12) and rebuild `` `${h12}:${minutes} ${ampm}` ``
with the JavaScript sign-preserving remainder. -/
def formatTime (timeStr : List Char) : List Char :=
  if timeStr.isEmpty then []
  else if (timeStr.map Char.toLower).contains 'm' then timeStr
  else
    match splitOnChar ':' timeStr with
    | hours :: minutes :: _ =>
      if hours.isEmpty ∨ minutes.isEmpty then timeStr
      else
        match parseIntJS hours with
        | none => "12:".data ++ minutes ++ " AM".data
        | some h =>
          let ampm := if 12 ≤ h then ("PM".data) else ("AM".data)
          let hr := Int.tmod h 12
          let h12 : Int := if hr = 0 then 12 else hr
          intToDec h12 ++ ':' :: minutes ++ ' ' :: ampm
    | _ => timeStr

/-- Number of characters matched after a literal `<br` by the tail of
the regex `<br\s*\/?>`: optional whitespace, optional slash, then `>`. -/
def brMatchLen (s : List Char) : Option Nat :=
  let sp := (s.takeWhile isJsSpace).length
  match s.drop sp with
  | '/' :: '>' :: _ => some (sp + 2)
  | '>' :: _ => some (sp + 1)
  | _ => none

/-- Global replacement of `<br\s*\/?>` by a newline, scanning left to
right as the JavaScript regex engine does. -/
def replaceBr : List Char → List Char
  | '<' :: 'b' :: 'r' :: rest =>
    match brMatchLen rest with
    | some k => '\n' :: replaceBr (rest.drop k)
    | none => '<' :: replaceBr ('b' :: 'r' :: rest)
  | c :: cs => c :: replaceBr cs
  | [] => []
termination_by s => s.length
decreasing_by
  · simp only [List.length_drop, List.length_cons]
    omega
  · simp
  · simp

/-- Global replacement of `<[^>]*>` by nothing: at a `<`, the match ends
at the first following `>`; a `<` with no later `>` cannot match and is
kept. -/
def stripTags : List Char → List Char
  | '<' :: rest =>
    if rest.contains '>' then
      stripTags ((rest.dropWhile (· ≠ '>')).drop 1)
    else '<' :: stripTags rest
  | c :: cs => c :: stripTags cs
  | [] => []
termination_by s => s.length
decreasing_by
  · have := (List.dropWhile_suffix (l := rest) (fun x => decide (x ≠ '>'))).length_le
    simp only [List.length_drop, List.length_cons]
    omega
  · simp
  · simp

/-- The function `htmlToText` of pdfGenerator.js: block-level closing tags and `<br>`
become newlines, `<li>` a bullet prefix, remaining markup is stripped,
the four common entities are decoded, and the result is trimmed. -/
def htmlToText (html : List Char) : List Char :=
  if html.isEmpty then []
  else
    let t1 := replaceAll ("</p>".data) "\n".data html
    let t2 := replaceAll ("</div>".data) "\n".data t1
    let t3 := replaceBr t2
    let t4 := replaceAll ("<li>".data) "• ".data t3
    let t5 := replaceAll ("</li>".data) "\n".data t4
    let t6 := replaceAll ("</ul>".data) "\n".data t5
    let t7 := replaceAll ("</ol>".data) "\n".data t6
    let t8 := stripTags t7
    let t9 := replaceAll ("&nbsp;".data) " ".data t8
    let t10 := replaceAll ("&amp;".data) "&".data t9
    let t11 := replaceAll ("&lt;".data) "<".data t10
    let t12 := replaceAll ("&gt;".data) ">".data t11
    jsTrim t12

/-- Primitive drawing operations emitted onto a page. -/
inductive DrawOp where
  | text (content : List Char) (x y size : ℚ)
  | line (x1 y1 x2 y2 : ℚ)
  | image (x y w h : ℚ)
deriving DecidableEq, Repr

/-- Oracles for the pdf-lib collaborators of the renderer: whether the
source document loads, how many pages it has, which strings the standard
font can encode (`drawText` throws on others), and whether given image
bytes embed as PNG or JPEG (with the embedded image's dimensions), plus
whether the final merge/archive step of the bulk job succeeds. -/
structure RenderEnv where
  loadOk : Bool := true
  numPages : Nat := 1
  canEncodeText : List Char → Bool := fun _ => true
  embedPng : List Char → Option (ℚ × ℚ) := fun _ => none
  embedJpg : List Char → Option (ℚ × ℚ) := fun _ => none
  aggregateOk : Bool := true

/-- Model of `drawTextField`: font size `min(height * 0.7, 12)`, text
`String(value || '')`, drawn at `x + 2`, vertically centred; throws when
the font cannot encode the text. -/
def drawTextFieldM (env : RenderEnv) (f : Field) (v : JSValue) :
    Except (List Char) (List DrawOp) :=
  let fontSize := min (f.height * (7 / 10 : ℚ)) 12
  let text := jsToDisplayString v
  if env.canEncodeText text then
    .ok [.text text (f.x + 2) (f.y + (f.height - fontSize) / 2) fontSize]
  else .error ("WinAnsi cannot encode text".data)

/-- Model of `drawMultilineText`: fixed font size 10, top-aligned, content reduced
through `htmlToText`. -/
def drawMultilineTextM (env : RenderEnv) (f : Field) :
    Except (List Char) (List DrawOp) :=
  let text := htmlToText (jsToDisplayString f.value)
  if env.canEncodeText text then
    .ok [.text text (f.x + 2) (f.y + f.height - 10 - 2) 10]
  else .error ("WinAnsi cannot encode text".data)

/-- Model of `drawCheckbox`: two checkmark segments when the value is `true`,
`'true'` or `'checked'`; nothing otherwise. Never throws. -/
def drawCheckbox (f : Field) : List DrawOp :=
  if f.value = .boolean true ∨ f.value = .str ("true".data)
      ∨ f.value = .str ("checked".data) then
    let size := min f.width f.height
    let padding := size * (1 / 5 : ℚ)
    [.line (f.x + padding) (f.y + size / 2) (f.x + size / 2) (f.y + padding),
     .line (f.x + size / 2) (f.y + padding) (f.x + size - padding)
       (f.y + size - padding)]
  else []

/-- Model of `drawSignature`: falsy values return immediately; a truthy non-string
raises a `TypeError` at `field.value.startsWith` (outside the try block);
a string not starting with `data:image` returns; everything after that
sits inside a try/catch, so a missing comma (`split(',')[1]` undefined)
or image bytes that neither `embedPng` nor `embedJpg` accept are
swallowed and simply draw nothing. -/
def drawSignatureM (env : RenderEnv) (f : Field) :
    Except (List Char) (List DrawOp) :=
  if ¬f.value.truthy then .ok []
  else
    match f.value with
    | .str s =>
      if ¬("data:image".data <+: s) then .ok []
      else
        match (splitOnChar ',' s).get? 1 with
        | none => .ok []
        | some payload =>
          match (env.embedPng payload).orElse (fun _ => env.embedJpg payload) with
          | none => .ok []
          | some (iw, imgh) =>
            let scale := min (f.width / iw) (f.height / imgh)
            let sw := iw * scale
            let sh := imgh * scale
            .ok [.image (f.x + (f.width - sw) / 2) (f.y + (f.height - sh) / 2) sw sh]
    | _ => .error ("TypeError: field.value.startsWith is not a function".data)

/-- The per-type switch of `generateFilledPDF`. A `time` field formats
its value first (a truthy non-string raises a `TypeError` at
`timeStr.toLowerCase`, a falsy one formats to the empty string). -/
def renderDispatch (env : RenderEnv) (f : Field) : Except (List Char) (List DrawOp) :=
  match f.type with
  | .text | .number | .date | .day | .dropdown => drawTextFieldM env f f.value
  | .time =>
    match f.value with
    | .str s => drawTextFieldM env f (.str (formatTime s))
    | v =>
      if v.truthy then .error ("TypeError: timeStr.toLowerCase is not a function".data)
      else drawTextFieldM env f (.str [])
  | .textarea => drawMultilineTextM env f
  | .checkbox => .ok (drawCheckbox f)
  | .signature => drawSignatureM env f
  | .unknownType _ => .ok []

/-- The page index expression `(field.page || 1) - 1`. -/
def jsPageIndex (f : Field) : Int :=
  (if f.page = 0 then 1 else f.page) - 1

/-- What the `generateFilledPDF` loop body does with one field: skip it
at the falsy-value guard (`!field.value && field.type !== 'checkbox'`),
skip it when its page index is out of range, or dispatch on its type to
draw (which can fail). -/
inductive FieldOutcome where
  | skippedValue
  | skippedPage
  | drawn (ops : List DrawOp)
  | failed (msg : List Char)
deriving DecidableEq, Repr

def processField (env : RenderEnv) (f : Field) : FieldOutcome :=
  if ¬f.value.truthy ∧ f.type ≠ .checkbox then .skippedValue
  else if jsPageIndex f < 0 ∨ (env.numPages : Int) ≤ jsPageIndex f then .skippedPage
  else
    match renderDispatch env f with
    | .ok ops => .drawn ops
    | .error e => .failed e

/-- Model of `generateFilledPDF(pdfPath, fields, flatten)`: fails outright when
the source document cannot be read or parsed, otherwise processes the
fields in order, accumulating draw operations; the first field whose
drawing throws aborts the whole call (there is no per-field catch here
apart from the one inside `drawSignature`). The flatten step's own
try/catch swallows any error, so `flatten` does not affect success. -/
def generateFilledPDF (env : RenderEnv) (fields : List Field) (flatten : Bool) :
    Except (List Char) (List DrawOp) :=
  if ¬env.loadOk then .error ("Failed to load PDF".data)
  else
    fields.foldlM (fun acc f =>
      match processField env f with
      | .skippedValue => Except.ok acc
      | .skippedPage => Except.ok acc
      | .drawn ops => Except.ok (acc ++ ops)
      | .failed e => Except.error e) []

/-! ## bulkPdfService.js: mapping and applying data -/

/-- Model of `normalizeCheckboxValue`: booleans pass through, numbers are true
exactly at 1, anything else is stringified, lower-cased, trimmed and
matched against the accepted set. -/
def checkboxTruthyStrings : List (List Char) :=
  ["true".data, "yes".data, "1".data, "checked".data, "on".data, "x".data]

def normalizeCheckboxValue : JSValue → Bool
  | .boolean b => b
  | .num q => q == 1
  | v => checkboxTruthyStrings.contains (jsTrim ((jsString v).map Char.toLower))

/-- JavaScript object assignment `m[k] = v` on an object represented as
its insertion-ordered entry list: overwrite an existing key in place,
append a fresh one. -/
def objSet (m : List (List Char × List Char)) (k v : List Char) :
    List (List Char × List Char) :=
  if m.any (fun p => p.1 = k) then
    m.map (fun p => if p.1 = k then (k, v) else p)
  else m ++ [(k, v)]

/-- The reverse mapping (field name → data column) built by
`applyDataToFields` from the header → field-name mapping object. -/
def reverseMappingOf (fieldMapping : List (List Char × List Char)) :
    List (List Char × List Char) :=
  fieldMapping.foldl (fun m p => objSet m p.2 p.1) []

/-- Model of `applyDataToFields(templateFields, dataRow, fieldMapping)`: deep-copy
the schema, invert the mapping, and for each field whose inverse-mapped
column is a truthy key present in the record with a value that is not
`''`/`null`, set the field's value (coercing checkboxes to booleans and
textarea `||` / literal `\n` separators to newlines); all other fields
keep their pre-existing default value. -/
def applyOneField (dataRow : Record) (reverseMapping : List (List Char × List Char))
    (field : Field) : Field :=
  match List.lookup field.name reverseMapping with
  | none => field
  | some dataKey =>
    if dataKey.isEmpty then field
    else
      match Record.getJS dataRow dataKey with
      | .undefined => field
      | v =>
        if v = .str [] ∨ v = .null then field
        else
          let v1 := if field.type = .checkbox then
              JSValue.boolean (normalizeCheckboxValue v)
            else v
          let v2 := match field.type, v1 with
            | .textarea, .str s =>
              JSValue.str (replaceAll ("\\n".data) "\n".data
                (replaceAll ("||".data) "\n".data s))
            | _, _ => v1
          { field with value := v2 }

def applyDataToFields (templateFields : List Field) (dataRow : Record)
    (fieldMapping : List (List Char × List Char)) : List Field :=
  templateFields.map (applyOneField dataRow (reverseMappingOf fieldMapping))

/-- Whether `applyDataToFields` has a value to apply to `field`: its
inverse-mapped column is a truthy key whose record value exists and is
neither the empty string nor `null`. -/
def appliedColumn (dataRow : Record) (fieldMapping : List (List Char × List Char))
    (field : Field) : Bool :=
  match List.lookup field.name (reverseMappingOf fieldMapping) with
  | none => false
  | some dataKey =>
    ¬dataKey.isEmpty ∧ Record.getJS dataRow dataKey ≠ .undefined ∧
      Record.getJS dataRow dataKey ≠ .str [] ∧ Record.getJS dataRow dataKey ≠ .null

/-- One template field's step of the inner loop of `autoMapFields`: skip
names already claimed; otherwise a candidate wins only with a strictly
greater score that is at least 0.5. -/
def bestFieldStep (header : List Char) (used : List (List Char))
    (acc : Option (List Char) × ℚ) (f : Field) : Option (List Char) × ℚ :=
  if f.name ∈ used then acc
  else
    let score := stringSimilarity header f.name
    if acc.2 < score ∧ (1 / 2 : ℚ) ≤ score then (some f.name, score) else acc

/-- Inner loop of `autoMapFields` for one header: fold over the template
fields tracking the best score and its field name. -/
def bestField (header : List Char) (templateFields : List Field)
    (used : List (List Char)) : Option (List Char) × ℚ :=
  templateFields.foldl (bestFieldStep header used) (none, 0)

/-- One header's step of `autoMapFields` on the (mapping, used) state. -/
def autoMapStep (templateFields : List Field)
    (acc : List (List Char × List Char) × List (List Char)) (header : List Char) :
    List (List Char × List Char) × List (List Char) :=
  match (bestField header templateFields acc.2).1 with
  | some name => (objSet acc.1 header name, name :: acc.2)
  | none => acc

/-- Model of `autoMapFields(dataHeaders, templateFields)`: greedy first-come
assignment in header order; a chosen field name is added to the used set
so later headers cannot claim it. -/
def autoMapFields (dataHeaders : List (List Char)) (templateFields : List Field) :
    List (List Char × List Char) :=
  (dataHeaders.foldl (autoMapStep templateFields)
    (([] : List (List Char × List Char)), ([] : List (List Char)))).1

/-! ## bulkPdfService.js: the bulk job -/

inductive JobStatus where
  | processing
  | completed
  | error
deriving DecidableEq, Repr

/-- One entry of `job.errors`: `{ row: i + 1, error: err.message }`. -/
structure RowError where
  row : Nat
  error : List Char
deriving DecidableEq, Repr

/-- The job record kept in the in-memory job table (the wall-clock
`createdAt` stamp is outside the model). -/
structure Job where
  id : List Char
  status : JobStatus
  total : Nat
  processed : Nat
  errors : List RowError
  error : Option (List Char) := none
  outputFile : Option (List Char) := none
  outputType : Option (List Char) := none
deriving DecidableEq, Repr

structure BulkOptions where
  merge : Bool := false
  filenameField : Option (List Char) := none
deriving DecidableEq, Repr

/-- Mutable state of the generation loop: the job record plus the
accumulated successful buffers and their filenames. -/
structure BulkState where
  job : Job
  buffers : List (List DrawOp)
  names : List (List Char)
deriving Repr

/-- The sanitizer `String(...).replace(/[^a-zA-Z0-9_-]/g, '_').substring(0, 50)`. -/
def sanitizeFilename (s : List Char) : List Char :=
  (s.map fun c => if c.isAlphanum ∨ c = '_' ∨ c = '-' then c else '_').take 50

/-- The output filename for record `i`: the sanitized filename-field
value when that option is a truthy string and the record's value for it
is truthy, else `filled_<i+1>.pdf`. -/
def computeFilename (ff : Option (List Char)) (row : Record) (i : Nat) : List Char :=
  let defaultName := "filled_".data ++ natToDec (i + 1) ++ ".pdf".data
  match ff with
  | some f =>
    if ¬f.isEmpty ∧ (Record.getJS row f).truthy then
      sanitizeFilename (jsString (Record.getJS row f)) ++ ".pdf".data
    else defaultName
  | none => defaultName

/-- Model of `generateSinglePDF`: apply the row to the schema, then render with
flatten forced true. -/
def generateSinglePDF (env : RenderEnv) (templateFields : List Field)
    (dataRow : Record) (fieldMapping : List (List Char × List Char)) :
    Except (List Char) (List DrawOp) :=
  generateFilledPDF env (applyDataToFields templateFields dataRow fieldMapping) true

/-- The job as registered the instant the bulk job starts. -/
def initialJob (jobId : List Char) (total : Nat) : Job :=
  { id := jobId, status := .processing, total := total, processed := 0, errors := [] }

/-- One iteration of the `generateBulkPDFs` loop on record `i`: on
success push buffer and filename and set `processed = i + 1`; on a
thrown per-record error push `{ row: i + 1, error }` and leave
`processed` alone. -/
def recordStep (env : RenderEnv) (templateFields : List Field)
    (fieldMapping : List (List Char × List Char)) (ff : Option (List Char))
    (i : Nat) (row : Record) (st : BulkState) : BulkState :=
  match generateSinglePDF env templateFields row fieldMapping with
  | .ok buf =>
    { job := { st.job with processed := i + 1 },
      buffers := st.buffers ++ [buf],
      names := st.names ++ [computeFilename ff row i] }
  | .error e =>
    { st with job := { st.job with errors := st.job.errors ++ [⟨i + 1, e⟩] } }

/-- The loop over the remaining records starting at index `i`, returning
the final state and the list of job snapshots taken after each
iteration's job mutation. -/
def bulkLoop (env : RenderEnv) (templateFields : List Field)
    (fieldMapping : List (List Char × List Char)) (ff : Option (List Char)) :
    Nat → List Record → BulkState → BulkState × List Job
  | _, [], st => (st, [])
  | i, row :: rest, st =>
    let st1 := recordStep env templateFields fieldMapping ff i row st
    let res := bulkLoop env templateFields fieldMapping ff (i + 1) rest st1
    (res.1, st1.job :: res.2)

/-- The aggregation tail of `generateBulkPDFs`: write the merged PDF or
the ZIP archive, record output path and type, and mark the job
completed; if the aggregation throws, the catch marks the job `error`.
One snapshot per job mutation. -/
def finishSnapshots (env : RenderEnv) (merge : Bool) (jobId : List Char)
    (st : BulkState) : List Job :=
  if env.aggregateOk then
    let ext := if merge then (".pdf".data) else (".zip".data)
    let j1 := { st.job with outputFile := some (jobId ++ "_bulk".data ++ ext) }
    let j2 := { j1 with outputType := some (if merge then ("pdf".data) else ("zip".data)) }
    let j3 := { j2 with status := JobStatus.completed }
    [j1, j2, j3]
  else
    let j1 := { st.job with status := JobStatus.error }
    let j2 := { j1 with error := some ("aggregation failed".data) }
    [j1, j2]

/-- The job as the aggregation tail leaves it (the last snapshot of
`finishSnapshots`). -/
def finishJob (env : RenderEnv) (merge : Bool) (jobId : List Char)
    (st : BulkState) : Job :=
  if env.aggregateOk then
    let ext := if merge then (".pdf".data) else (".zip".data)
    { st.job with
        outputFile := some (jobId ++ "_bulk".data ++ ext),
        outputType := some (if merge then ("pdf".data) else ("zip".data)),
        status := JobStatus.completed }
  else
    { st.job with
        status := JobStatus.error,
        error := some ("aggregation failed".data) }

/-- Every job snapshot of one `generateBulkPDFs` run, in mutation order:
registration, the missing-template error path, each loop iteration, and
the aggregation tail. `templateFields?` is the result of
`getTemplateFields` (`none` when the template has no saved schema). -/
def bulkTrace (env : RenderEnv) (jobId : List Char)
    (templateFields? : Option (List Field)) (dataRows : List Record)
    (fieldMapping : List (List Char × List Char)) (opts : BulkOptions) : List Job :=
  let job0 := initialJob jobId dataRows.length
  match templateFields? with
  | none =>
    let j1 := { job0 with status := JobStatus.error }
    let j2 := { j1 with error := some ("Template fields not found".data) }
    [job0, j1, j2]
  | some tf =>
    let res := bulkLoop env tf fieldMapping opts.filenameField 0 dataRows
      ⟨job0, [], []⟩
    job0 :: res.2 ++ finishSnapshots env opts.merge jobId res.1

/-- The job record as it stands when `generateBulkPDFs` returns: the
template-missing early exit, or the loop followed by the aggregation
tail. -/
def generateBulkPDFs (env : RenderEnv) (jobId : List Char)
    (templateFields? : Option (List Field)) (dataRows : List Record)
    (fieldMapping : List (List Char × List Char)) (opts : BulkOptions) : Job :=
  let job0 := initialJob jobId dataRows.length
  match templateFields? with
  | none =>
    { job0 with
        status := JobStatus.error,
        error := some ("Template fields not found".data) }
  | some tf =>
    finishJob env opts.merge jobId
      (bulkLoop env tf fieldMapping opts.filenameField 0 dataRows ⟨job0, [], []⟩).1

/-- Forward-only status relation between consecutive job snapshots: the
status either stays put or leaves `processing` once and for all. Along a
chain this forces: a prefix at `processing`, at most one change, and a
constant tail — the status never returns to `processing` and never moves
between `completed` and `error`. -/
def statusForward (j1 j2 : Job) : Prop :=
  j1.status = j2.status ∨ (j1.status = .processing ∧ j2.status ≠ .processing)

/-! ## Concrete scenario inputs used by counterexamples and witnesses -/

/-- A plain text field on page 1. -/
def fText : Field :=
  { name := "Name".data, type := .text, page := 1,
    x := 10, y := 10, width := 100, height := 20 }

/-- A signature field on page 1. -/
def fSig : Field :=
  { name := "Sig".data, type := .signature, page := 1,
    x := 10, y := 40, width := 100, height := 40 }

/-- Identity mapping for the two columns of the scenarios. -/
def mapNameSig : List (List Char × List Char) :=
  [("Name".data, "Name".data), ("Sig".data, "Sig".data)]

/-- Default environment: the document loads, has one page, every string
encodes, no image bytes embed (so every data-URI signature is
undecodable), aggregation succeeds. -/
def envPlain : RenderEnv := {}

/-- Environment whose font cannot encode the character `→`, so records
drawing such text throw inside `page.drawText` and fail individually. -/
def envArrow : RenderEnv := { canEncodeText := fun s => !s.contains '→' }

def rowAlice : Record := [("Name".data, JSValue.str ("Alice".data))]

/-- A record whose signature column holds a well-formed data-URI whose
bytes nevertheless embed neither as PNG nor as JPEG under `envPlain`. -/
def rowBobBadSig : Record :=
  [("Name".data, JSValue.str ("Bob".data)),
   ("Sig".data, JSValue.str ("data:image/png;base64,AAAA".data))]

def rowCarol : Record := [("Name".data, JSValue.str ("Carol".data))]

/-- A record whose name cannot be encoded by the font under `envArrow`. -/
def rowArrow : Record := [("Name".data, JSValue.str ("X→Y".data))]

/-! ## Theorems -/

theorem editDistance_nil_left (ys : List Char) : editDistance [] ys = ys.length := by
  simp [editDistance]

theorem editDistance_nil_right (xs : List Char) : editDistance xs [] = xs.length := by
  cases xs <;> simp [editDistance]

theorem editDistance_cons_cons (x y : Char) (xs ys : List Char) :
    editDistance (x :: xs) (y :: ys) =
      if x = y then editDistance xs ys
      else 1 + min (min (editDistance xs ys) (editDistance (x :: xs) ys))
                   (editDistance xs (y :: ys)) := by
  simp [editDistance]

/-- Taking the minimum over the rows of a 3×3 grid and then over the
results agrees with doing the same over the columns. Arithmetic core of
the snoc recurrence below. -/
theorem min_matrix_transpose (e11 e12 e13 e21 e22 e23 e31 e32 e33 : ℕ) :
    1 + min (min (1 + min (min e11 e12) e13) (1 + min (min e21 e22) e23))
            (1 + min (min e31 e32) e33)
      = 1 + min (min (1 + min (min e11 e21) e31) (1 + min (min e12 e22) e32))
            (1 + min (min e13 e23) e33) := by
  simp only [show ∀ n : ℕ, 1 + n = n + 1 from fun n => Nat.add_comm 1 n,
    Nat.succ_min_succ]
  congr 1
  ac_rfl

/-- The edit distance satisfies the same three-way recurrence when one
character is appended at the end of each argument; this is the bridge
between the front-recursive definition and the prefix-indexed matrix of
the source. -/
theorem editDistance_snoc_snoc (x y : Char) :
    ∀ n (as bs : List Char), as.length + bs.length ≤ n →
      editDistance (as ++ [x]) (bs ++ [y]) =
        if x = y then editDistance as bs
        else 1 + min (min (editDistance as bs) (editDistance (as ++ [x]) bs))
                     (editDistance as (bs ++ [y])) := by
  intro n
  induction n with
  | zero =>
    intro as bs hlen
    have ha : as = [] := by
      cases as with
      | nil => rfl
      | cons a t => simp at hlen
    have hb : bs = [] := by
      cases bs with
      | nil => rfl
      | cons b t => simp at hlen
    subst ha; subst hb
    simp only [List.nil_append]
    rw [editDistance_cons_cons x y ([]) ([])]
  | succ n ih =>
    intro as bs hlen
    match as, bs with
    | [], [] =>
      simp only [List.nil_append]
      rw [editDistance_cons_cons x y ([]) ([])]
    | [], b :: B =>
      have hlen' : B.length + 1 ≤ n + 1 := by simp at hlen; omega
      have ihB := ih ([]) B (by simp; omega)
      simp only [List.nil_append, List.cons_append] at ihB ⊢
      rw [editDistance_cons_cons x b ([]) (B ++ [y])]
      rw [editDistance_cons_cons x b ([]) B]
      rw [ihB]
      simp only [editDistance_nil_left, List.length_append, List.length_cons,
        List.length_nil]
      split_ifs <;> omega
    | a :: A, [] =>
      have hlen' : A.length + 1 ≤ n + 1 := by simp at hlen; omega
      have ihA := ih A ([]) (by simp; omega)
      simp only [List.nil_append, List.cons_append] at ihA ⊢
      rw [editDistance_cons_cons a y (A ++ [x]) ([])]
      rw [editDistance_cons_cons a y A ([])]
      rw [ihA]
      simp only [editDistance_nil_right, List.length_append, List.length_cons,
        List.length_nil]
      split_ifs <;> omega
    | a :: A, b :: B =>
      have hlen' : A.length + B.length + 2 ≤ n + 1 := by simp at hlen; omega
      have ih1 := ih A B (by omega)
      have ih2 := ih (a :: A) B (by simp; omega)
      have ih3 := ih A (b :: B) (by simp; omega)
      simp only [List.cons_append] at ih1 ih2 ih3 ⊢
      rw [editDistance_cons_cons a b (A ++ [x]) (B ++ [y])]
      rw [editDistance_cons_cons a b A B]
      rw [editDistance_cons_cons a b (A ++ [x]) B]
      rw [editDistance_cons_cons a b A (B ++ [y])]
      rw [ih1, ih2, ih3]
      by_cases hab : a = b
      · by_cases hxy : x = y
        · simp only [if_pos hab, if_pos hxy]
        · simp only [if_pos hab, if_neg hxy]
      · by_cases hxy : x = y
        · simp only [if_neg hab, if_pos hxy]
        · simp only [if_neg hab, if_neg hxy]
          exact min_matrix_transpose (editDistance A B) (editDistance (A ++ [x]) B)
            (editDistance A (B ++ [y])) (editDistance (a :: A) B)
            (editDistance (a :: (A ++ [x])) B) (editDistance (a :: A) (B ++ [y]))
            (editDistance A (b :: B)) (editDistance (A ++ [x]) (b :: B))
            (editDistance A (b :: (B ++ [y])))

/-- Edit distance is invariant under reversing both arguments. -/
theorem editDistance_reverse :
    ∀ n (as bs : List Char), as.length + bs.length ≤ n →
      editDistance as.reverse bs.reverse = editDistance as bs := by
  intro n
  induction n with
  | zero =>
    intro as bs hlen
    have ha : as = [] := by
      cases as with
      | nil => rfl
      | cons a t => simp at hlen
    have hb : bs = [] := by
      cases bs with
      | nil => rfl
      | cons b t => simp at hlen
    subst ha; subst hb; rfl
  | succ n ih =>
    intro as bs hlen
    match as, bs with
    | [], bs => simp [editDistance_nil_left]
    | a :: A, [] => simp [editDistance_nil_right]
    | a :: A, b :: B =>
      have hlen' : A.length + B.length + 2 ≤ n + 1 := by simp at hlen; omega
      have ih1 := ih A B (by omega)
      have ih2 := ih (a :: A) B (by simp; omega)
      have ih3 := ih A (b :: B) (by simp; omega)
      have e2 : editDistance (A.reverse ++ [a]) B.reverse
          = editDistance (a :: A) B := by
        rw [← List.reverse_cons]; exact ih2
      have e3 : editDistance A.reverse (B.reverse ++ [b])
          = editDistance A (b :: B) := by
        rw [← List.reverse_cons]; exact ih3
      rw [List.reverse_cons, List.reverse_cons,
        editDistance_snoc_snoc a b (A.reverse.length + B.reverse.length)
          A.reverse B.reverse le_rfl,
        editDistance_cons_cons a b A B, ih1, e2, e3]

/-- The matrix cell `matrix[i][j]` holds the edit distance between the
reversed `j`-prefix of `a` and the reversed `i`-prefix of `b`. -/
theorem levCell_eq_editDistance (a b : List Char) :
    ∀ n i j, i + j ≤ n → i ≤ b.length → j ≤ a.length →
      levCell a b i j = editDistance (a.take j).reverse (b.take i).reverse := by
  intro n
  induction n with
  | zero =>
    intro i j hn hi hj
    have : i = 0 ∧ j = 0 := by omega
    obtain ⟨rfl, rfl⟩ := this
    simp [levCell, editDistance_nil_left]
  | succ n ih =>
    intro i j hn hi hj
    match i, j with
    | 0, j =>
      simp only [levCell, List.take_zero, List.reverse_nil, editDistance_nil_right,
        List.length_reverse, List.length_take]
      omega
    | i + 1, 0 =>
      simp only [levCell, List.take_zero, List.reverse_nil, editDistance_nil_left,
        List.length_reverse, List.length_take]
      omega
    | i + 1, j + 1 =>
      have hib : i < b.length := by omega
      have hja : j < a.length := by omega
      have hgb : b.get? i = some b[i] := by
        rw [List.get?_eq_getElem?]
        exact List.getElem?_eq_getElem hib
      have hga : a.get? j = some a[j] := by
        rw [List.get?_eq_getElem?]
        exact List.getElem?_eq_getElem hja
      have htb : (b.take (i + 1)).reverse = b[i] :: (b.take i).reverse := by
        rw [List.take_succ, List.getElem?_eq_getElem hib]
        simp
      have hta : (a.take (j + 1)).reverse = a[j] :: (a.take j).reverse := by
        rw [List.take_succ, List.getElem?_eq_getElem hja]
        simp
      have ih11 := ih i j (by omega) (by omega) (by omega)
      have ih12 := ih i (j + 1) (by omega) (by omega) (by omega)
      have ih21 := ih (i + 1) j (by omega) (by omega) (by omega)
      simp only [levCell, hgb, hga, Option.some.injEq]
      rw [ih11, ih12, ih21, hta, htb]
      rw [editDistance_cons_cons]
      by_cases h : b[i] = a[j]
      · rw [if_pos h, if_pos h.symm]
      · rw [if_neg h, if_neg (fun hc => h hc.symm)]
        omega

/-- The bottom-right cell of the source's matrix is the classic edit
distance of the two (normalized) strings. -/
theorem levCell_full (a b : List Char) :
    levCell a b b.length a.length = editDistance a b := by
  rw [levCell_eq_editDistance a b (b.length + a.length) b.length a.length
    le_rfl le_rfl le_rfl]
  rw [List.take_length, List.take_length]
  exact editDistance_reverse (a.length + b.length) a b le_rfl

/-- The DP-matrix similarity of the source equals the spec-side closed
formula on every pair of strings. -/
theorem stringSimilarity_eq_spec (a0 b0 : List Char) :
    stringSimilarity a0 b0 = specSimilarity a0 b0 := by
  unfold stringSimilarity specSimilarity
  by_cases h1 : normalize a0 = normalize b0
  · simp [h1]
  · by_cases h2 : normalize b0 <:+: normalize a0 ∨ normalize a0 <:+: normalize b0
    · simp [h1, h2]
    · have hmax : max (normalize a0).length (normalize b0).length ≠ 0 := by
        intro h0
        rw [Nat.max_eq_zero_iff] at h0
        exact h1 (by
          rw [List.length_eq_zero.mp h0.1, List.length_eq_zero.mp h0.2])
      have hMQ : ((max (normalize a0).length (normalize b0).length : ℕ) : ℚ) ≠ 0 :=
        Nat.cast_ne_zero.mpr hmax
      simp only [h1, h2, hmax, if_false, ite_false]
      rw [levCell_full]
      rw [Nat.cast_max] at hMQ ⊢
      rw [eq_sub_iff_add_eq, div_add_div_same, sub_add_cancel, div_self hMQ]

/-- C6: `stringSimilarity(a, b)` is 1 when the normalized forms
(lower-cased, underscores/hyphens/whitespace stripped) are identical
(hence 1 on `(a, a)` and when both normalize to empty), 0.8 when one
normalized form is a substring of the other, and otherwise
`1 - editDistance / max(len_a, len_b)` with classic unit-cost
insertion/deletion/substitution edit distance — `specSimilarity` is the
specification's wording of exactly that case split. -/
theorem C6_stringSimilarity_matches_spec (a b : List Char) :
    stringSimilarity a b = specSimilarity a b ∧ stringSimilarity a a = 1 :=
  ⟨stringSimilarity_eq_spec a b, by simp [stringSimilarity]⟩

/-- C8: `normalizeCheckboxValue` returns booleans unchanged, returns
true on numbers exactly when the number is 1, and on every other value
returns true exactly when the value's string form, lower-cased and
trimmed, is one of true/yes/1/checked/on/x — including the four
examples `YES ↦ true`, `"0" ↦ false`, `1 ↦ true`, `maybe ↦ false`. -/
theorem C8_normalizeCheckboxValue :
    (∀ b : Bool, normalizeCheckboxValue (.boolean b) = b) ∧
    (∀ q : ℚ, normalizeCheckboxValue (.num q) = decide (q = 1)) ∧
    (∀ s : List Char, normalizeCheckboxValue (.str s)
        = checkboxTruthyStrings.contains (jsTrim (s.map Char.toLower))) ∧
    normalizeCheckboxValue .null
        = checkboxTruthyStrings.contains (jsTrim ("null".data.map Char.toLower)) ∧
    normalizeCheckboxValue .undefined
        = checkboxTruthyStrings.contains (jsTrim ("undefined".data.map Char.toLower)) ∧
    normalizeCheckboxValue (.str ("YES".data)) = true ∧
    normalizeCheckboxValue (.str ("0".data)) = false ∧
    normalizeCheckboxValue (.num 1) = true ∧
    normalizeCheckboxValue (.str ("maybe".data)) = false := by
  refine ⟨fun b => rfl, fun q => ?_, fun s => rfl, rfl, rfl,
    by decide, by decide, by decide, by decide⟩
  by_cases h : q = 1 <;> simp [normalizeCheckboxValue, h]

theorem splitOnChar_not_mem (c : Char) (s : List Char) (h : c ∉ s) :
    splitOnChar c s = [s] := by
  induction s with
  | nil => rfl
  | cons x xs ih =>
    have hxc : ¬(x = c) := fun he => h (by rw [he]; exact List.mem_cons_self _ _)
    have h2 : c ∉ xs := fun hm => h (List.mem_cons_of_mem _ hm)
    simp only [splitOnChar, if_neg hxc, ih h2]

theorem splitOnChar_append (c : Char) (pre rest : List Char) (h : c ∉ pre) :
    splitOnChar c (pre ++ c :: rest) = pre :: splitOnChar c rest := by
  induction pre with
  | nil => simp [splitOnChar]
  | cons x xs ih =>
    have hxc : ¬(x = c) := fun he => h (by rw [he]; exact List.mem_cons_self _ _)
    have h2 : c ∉ xs := fun hm => h (List.mem_cons_of_mem _ hm)
    simp only [List.cons_append, splitOnChar, if_neg hxc]
    rw [show splitOnChar c (List.append xs (c :: rest)) = xs :: splitOnChar c rest
      from ih h2]

/-- C9 counterexample: the claim says every input without a parseable
hours-colon-minutes shape is returned unchanged, but `"ab:30"` — whose
hours part parses to `NaN` — is rewritten to `"12:30 AM"` because `NaN`
fails `h >= 12` (so AM) and `NaN % 12 || 12` yields 12. -/
theorem C9_counterexample_formatTime :
    formatTime ("ab:30".data) = "12:30 AM".data ∧
    formatTime ("ab:30".data) ≠ "ab:30".data := by
  constructor
  · rfl
  · decide

/-- C9 (amended): `formatTime` converts 24-hour `HH:MM` to `H:MM AM/PM`
(hours 12–23 become PM, hours below 12 AM, hour shown modulo 12 with 0
shown as 12); any input containing `m`/`M` and any input whose
colon-split yields no second part or an empty hours or minutes part is
returned unchanged, and the empty string yields the empty string — but
an input whose nonempty hours part merely fails to parse as a number is
NOT returned unchanged: `parseInt` yields `NaN` and the result is
`"12:<minutes> AM"`. -/
theorem C9_formatTime_amended :
    formatTime [] = [] ∧
    (∀ s : List Char, 'm' ∈ s.map Char.toLower → formatTime s = s) ∧
    (∀ s : List Char, s ≠ [] → 'm' ∉ s.map Char.toLower →
      ((splitOnChar ':' s).headD [] = [] ∨ (splitOnChar ':' s).get? 1 = none ∨
        (splitOnChar ':' s).get? 1 = some []) →
      formatTime s = s) ∧
    (∀ (hStr mStr : List Char), parseIntJS hStr = none →
      hStr ≠ [] → mStr ≠ [] →
      'm' ∉ (hStr ++ ':' :: mStr).map Char.toLower →
      ':' ∉ hStr → ':' ∉ mStr →
      formatTime (hStr ++ ':' :: mStr) = "12:".data ++ mStr ++ " AM".data) ∧
    (∀ (hStr mStr : List Char) (h : ℤ), parseIntJS hStr = some h →
      0 ≤ h → h < 24 → hStr ≠ [] → mStr ≠ [] →
      'm' ∉ (hStr ++ ':' :: mStr).map Char.toLower →
      ':' ∉ hStr → ':' ∉ mStr →
      formatTime (hStr ++ ':' :: mStr)
        = intToDec (if h % 12 = 0 then 12 else h % 12) ++ ':' :: mStr
            ++ ' ' :: (if 12 ≤ h then ("PM".data) else ("AM".data))) ∧
    formatTime ("14:30".data) = "2:30 PM".data ∧
    formatTime ("09:05".data) = "9:05 AM".data ∧
    formatTime ("2:30 PM".data) = "2:30 PM".data := by
  refine ⟨rfl, ?_, ?_, ?_, ?_, rfl, rfl, rfl⟩
  · intro s hm
    have hne : s ≠ [] := by
      intro he
      rw [he] at hm
      simp at hm
    have hcont : (s.map Char.toLower).contains 'm' = true := by
      simpa using hm
    have hemp : s.isEmpty = false := by
      simpa [List.isEmpty_iff] using hne
    simp only [formatTime, hemp, hcont, if_true, if_false, ite_true, ite_false,
      Bool.false_eq_true]
  · intro s hne hm hsplit
    have hcont : (s.map Char.toLower).contains 'm' = false := by
      simpa using hm
    have hemp : s.isEmpty = false := by
      simpa [List.isEmpty_iff] using hne
    simp only [formatTime, hemp, hcont, Bool.false_eq_true, if_false, ite_false]
    cases hp : splitOnChar ':' s with
    | nil => rfl
    | cons hours tl =>
      cases tl with
      | nil => rfl
      | cons minutes rest =>
        rw [hp] at hsplit
        rcases hsplit with hs1 | hs2 | hs3
        · have h1 : hours = [] := by
            rw [show (hours :: minutes :: rest).headD [] = hours from rfl] at hs1
            exact hs1
          simp [h1]
        · rw [show (hours :: minutes :: rest).get? 1 = some minutes from rfl] at hs2
          exact absurd hs2 (by simp)
        · rw [show (hours :: minutes :: rest).get? 1 = some minutes from rfl] at hs3
          injection hs3 with h3
          simp [h3]
  · intro hStr mStr hparse hh hm hnom hch hcm
    have hcont : ((hStr ++ ':' :: mStr).map Char.toLower).contains 'm' = false := by
      simpa using hnom
    have hemp : (hStr ++ ':' :: mStr).isEmpty = false := by
      cases hStr with
      | nil => exact absurd rfl hh
      | cons a l => rfl
    have hsplit : splitOnChar ':' (hStr ++ ':' :: mStr) = [hStr, mStr] := by
      rw [splitOnChar_append ':' hStr mStr hch, splitOnChar_not_mem ':' mStr hcm]
    simp only [formatTime, hemp, hcont, Bool.false_eq_true, if_false, ite_false,
      hsplit]
    rw [if_neg (by
      simp only [List.isEmpty_iff]
      rintro (hc | hc)
      · exact hh hc
      · exact hm hc)]
    rw [hparse]
  · intro hStr mStr h hparse h0 h24 hh hm hnom hch hcm
    have hcont : ((hStr ++ ':' :: mStr).map Char.toLower).contains 'm' = false := by
      simpa using hnom
    have hemp : (hStr ++ ':' :: mStr).isEmpty = false := by
      cases hStr with
      | nil => exact absurd rfl hh
      | cons a l => rfl
    have hsplit : splitOnChar ':' (hStr ++ ':' :: mStr) = [hStr, mStr] := by
      rw [splitOnChar_append ':' hStr mStr hch, splitOnChar_not_mem ':' mStr hcm]
    simp only [formatTime, hemp, hcont, Bool.false_eq_true, if_false, ite_false,
      hsplit]
    rw [if_neg (by
      simp only [List.isEmpty_iff]
      rintro (hc | hc)
      · exact hh hc
      · exact hm hc)]
    rw [hparse]
    interval_cases h <;> rfl

/-- C9 witness: the amended theorem applied at concrete inputs, each
hypothesis discharged by computation. -/
theorem C9_formatTime_amended_witness :
    formatTime ("7".data ++ ':' :: "45".data)
      = intToDec (if (7 : ℤ) % 12 = 0 then 12 else (7 : ℤ) % 12) ++ ':' :: "45".data
          ++ ' ' :: (if (12 : ℤ) ≤ 7 then ("PM".data) else ("AM".data)) ∧
    formatTime ("abc PM".data) = "abc PM".data ∧
    formatTime ("x:".data) = "x:".data ∧
    formatTime ("zz".data ++ ':' :: "08".data) = "12:".data ++ "08".data ++ " AM".data :=
  ⟨C9_formatTime_amended.2.2.2.2.1 ("7".data) "45".data 7 (by decide) (by decide)
      (by decide) (by decide) (by decide) (by decide) (by decide) (by decide),
   C9_formatTime_amended.2.1 ("abc PM".data) (by decide),
   C9_formatTime_amended.2.2.1 ("x:".data) (by decide) (by decide)
      (Or.inr (Or.inr (by decide))),
   C9_formatTime_amended.2.2.2.1 ("zz".data) "08".data (by decide) (by decide)
      (by decide) (by decide) (by decide) (by decide)⟩

/-- C10: the guard `!field.value && field.type !== 'checkbox'` of
`generateFilledPDF` skips every non-checkbox field whose value is falsy
— in particular a number field with value 0 and any field with value
`false` — and never skips a checkbox at that guard; a checkbox whose
page is in range always reaches the per-type dispatch (and draws via
`drawCheckbox`), and a value-skipped field contributes nothing to the
output. -/
theorem C10_falsy_value_skip (env : RenderEnv) (f : Field) :
    (f.type ≠ .checkbox → f.value.truthy = false → processField env f = .skippedValue) ∧
    (f.type = .number → f.value = .num 0 → processField env f = .skippedValue) ∧
    (f.value = .boolean false → f.type ≠ .checkbox → processField env f = .skippedValue) ∧
    (f.type = .checkbox → processField env f ≠ .skippedValue) ∧
    (f.type = .checkbox → ¬(jsPageIndex f < 0 ∨ (env.numPages : Int) ≤ jsPageIndex f) →
      processField env f = .drawn (drawCheckbox f)) ∧
    (env.loadOk = true → f.type ≠ .checkbox → f.value.truthy = false →
      generateFilledPDF env [f] true = .ok []) := by
  have hskip : f.type ≠ .checkbox → f.value.truthy = false →
      processField env f = .skippedValue := by
    intro ht hv
    rw [processField, if_pos ⟨by simp [hv], ht⟩]
  refine ⟨hskip, ?_, ?_, ?_, ?_, ?_⟩
  · intro ht hv
    exact hskip (by simp [ht]) (by simp [hv, JSValue.truthy])
  · intro hv ht
    exact hskip ht (by simp [hv, JSValue.truthy])
  · intro ht
    rw [processField, if_neg (by simp [ht])]
    cases hpage : (decide (jsPageIndex f < 0 ∨ (env.numPages : Int) ≤ jsPageIndex f)) with
    | true =>
      rw [if_pos (of_decide_eq_true hpage)]
      simp
    | false =>
      rw [if_neg (of_decide_eq_false hpage)]
      simp only [renderDispatch, ht]
      simp
  · intro ht hpage
    rw [processField, if_neg (by simp [ht]), if_neg hpage]
    simp [renderDispatch, ht]
  · intro hload ht hv
    rw [generateFilledPDF, if_neg (by simp [hload])]
    simp only [List.foldlM, hskip ht hv]
    rfl

/-- C10 witness: a number field with value 0 is skipped by the
falsy-value guard; with checkbox type the same field is not; a checkbox
on a page in range reaches the dispatch; and the skipped field
contributes no output. -/
theorem C10_falsy_value_skip_witness :
    processField envPlain { fText with type := .number, value := .num 0 }
      = .skippedValue ∧
    processField envPlain { fText with type := .checkbox, value := .num 0 }
      ≠ .skippedValue ∧
    processField envPlain { fText with type := .checkbox, value := .boolean true }
      = .drawn (drawCheckbox { fText with type := .checkbox, value := .boolean true }) ∧
    generateFilledPDF envPlain [{ fText with value := .boolean false }] true = .ok [] :=
  ⟨(C10_falsy_value_skip envPlain _).2.1 rfl rfl,
   (C10_falsy_value_skip envPlain _).2.2.2.1 rfl,
   (C10_falsy_value_skip envPlain _).2.2.2.2.1 rfl (by decide),
   (C10_falsy_value_skip envPlain _).2.2.2.2.2 rfl (by decide) rfl⟩

/-- The helper `applyOneField` can only change the `value` component of a field. -/
theorem applyOneField_frame (r : Record) (rm : List (List Char × List Char))
    (f : Field) :
    applyOneField r rm f = { f with value := (applyOneField r rm f).value } := by
  unfold applyOneField
  repeat' split
  all_goals rfl

/-- When the inverse-mapped column is absent, falsy, or holds
`undefined`/`''`/`null`, `applyOneField` returns the field unchanged. -/
theorem applyOneField_no_column (r : Record)
    (fm : List (List Char × List Char)) (f : Field)
    (h : appliedColumn r fm f = false) :
    applyOneField r (reverseMappingOf fm) f = f := by
  unfold appliedColumn at h
  unfold applyOneField
  split
  · rfl
  next dk hlk =>
    simp only [hlk] at h
    rw [decide_eq_false_iff_not] at h
    by_cases hdk : dk.isEmpty = true
    · simp [hdk]
    · rw [if_neg hdk]
      cases hv : Record.getJS r dk with
      | undefined => rfl
      | null => simp
      | str s =>
        rw [hv] at h
        have hEq : JSValue.str s = .str [] ∨ JSValue.str s = .null := by
          by_contra hc
          push_neg at hc
          exact h ⟨hdk, by simp, hc.1, hc.2⟩
        rcases hEq with hE | hE
        · injection hE with hs
          simp [hs]
        · exact absurd hE (by simp)
      | num q =>
        rw [hv] at h
        exact absurd ⟨hdk, by simp, by simp, by simp⟩ h
      | boolean b =>
        rw [hv] at h
        exact absurd ⟨hdk, by simp, by simp, by simp⟩ h

/-- C7: `applyDataToFields` never mutates the schema it is given — the
output pairs with the input elementwise and differs at most in `value` —
and a field whose mapped column is missing, empty-string or `null` keeps
its pre-existing default value; a value differing from the default
implies the inverse-mapped column exists with a truthy key and a
non-empty, non-null value. -/
theorem C7_applyDataToFields_frame (templateFields : List Field) (dataRow : Record)
    (fieldMapping : List (List Char × List Char)) :
    (applyDataToFields templateFields dataRow fieldMapping).length
        = templateFields.length ∧
    (∀ p ∈ templateFields.zip (applyDataToFields templateFields dataRow fieldMapping),
      p.2 = { p.1 with value := p.2.value } ∧
      (appliedColumn dataRow fieldMapping p.1 = false → p.2 = p.1) ∧
      (p.2.value ≠ p.1.value → appliedColumn dataRow fieldMapping p.1 = true)) := by
  constructor
  · simp [applyDataToFields]
  · intro p hp
    have hzipself : ∀ (l : List Field) (g : Field → Field),
        l.zip (l.map g) = l.map (fun x => (x, g x)) := by
      intro l g
      induction l with
      | nil => rfl
      | cons a t ih => simp [ih]
    have hzip : templateFields.zip (applyDataToFields templateFields dataRow fieldMapping)
        = templateFields.map (fun x =>
            (x, applyOneField dataRow (reverseMappingOf fieldMapping) x)) := by
      unfold applyDataToFields
      exact hzipself templateFields (applyOneField dataRow (reverseMappingOf fieldMapping))
    rw [hzip] at hp
    obtain ⟨x, hx, rfl⟩ := List.mem_map.mp hp
    refine ⟨applyOneField_frame dataRow (reverseMappingOf fieldMapping) x, ?_, ?_⟩
    · intro hnc
      exact applyOneField_no_column dataRow fieldMapping x hnc
    · intro hval
      by_contra hc
      rw [Bool.not_eq_true] at hc
      exact hval (by rw [applyOneField_no_column dataRow fieldMapping x hc])

/-- C7 witness: with an empty mapping the signature field keeps its
pre-set default; with the identity mapping Alice's name is applied but
only the value differs. -/
theorem C7_applyDataToFields_frame_witness :
    ((fSig, fSig) : Field × Field).2 = fSig ∧
    (applyDataToFields [fSig] rowAlice []).length = 1 ∧
    ((fText, { fText with value := JSValue.str ("Alice".data) }) : Field × Field).2
      = { fText with value := JSValue.str ("Alice".data) } := by
  refine ⟨?_, ?_, ?_⟩
  · exact ((C7_applyDataToFields_frame [fSig] rowAlice []).2 (fSig, fSig)
      (by decide)).2.1 (by decide)
  · exact ((C7_applyDataToFields_frame [fSig] rowAlice []).1).trans rfl
  · exact ((C7_applyDataToFields_frame [fText] rowAlice mapNameSig).2
      (fText, { fText with value := JSValue.str ("Alice".data) }) (by decide)).1

/-- Every entry of `objSet m k v` is the new pair or an old pair with a
different key. -/
theorem mem_objSet (m : List (List Char × List Char)) (k v : List Char)
    (p : List Char × List Char) (hp : p ∈ objSet m k v) :
    p = (k, v) ∨ (p ∈ m ∧ p.1 ≠ k) := by
  unfold objSet at hp
  by_cases hany : m.any (fun q => q.1 = k)
  · rw [if_pos hany] at hp
    obtain ⟨q, hq, hpq⟩ := List.mem_map.mp hp
    by_cases hqk : q.1 = k
    · left
      rw [← hpq, if_pos hqk]
    · right
      rw [← hpq, if_neg hqk]
      exact ⟨hq, hqk⟩
  · rw [if_neg hany] at hp
    rcases List.mem_append.mp hp with hm | hnew
    · right
      refine ⟨hm, fun hk => ?_⟩
      exact hany (List.any_eq_true.mpr ⟨p, hm, by simp [hk]⟩)
    · left
      simpa using hnew

/-- Invariant of the inner fold of `autoMapFields`: a selected name is
unclaimed, belongs to the template fields, and scored at least 0.5. -/
theorem bestField_fold_inv (header : List Char) (used : List (List Char))
    (tf : List Field) :
    ∀ (l : List Field), (∀ f ∈ l, f ∈ tf) →
    ∀ (acc : Option (List Char) × ℚ),
      (∀ nm, acc.1 = some nm → nm ∉ used ∧
        (1 / 2 : ℚ) ≤ stringSimilarity header nm ∧ nm ∈ tf.map Field.name) →
    ∀ nm, (l.foldl (bestFieldStep header used) acc).1 = some nm →
      nm ∉ used ∧ (1 / 2 : ℚ) ≤ stringSimilarity header nm ∧
        nm ∈ tf.map Field.name := by
  intro l
  induction l with
  | nil => exact fun _ acc hacc nm h => hacc nm h
  | cons f t ih =>
    intro hsub acc hacc nm h
    refine ih (fun g hg => hsub g (List.mem_cons_of_mem _ hg))
      (bestFieldStep header used acc f) ?_ nm h
    intro nm2 h2
    unfold bestFieldStep at h2
    by_cases h1 : f.name ∈ used
    · rw [if_pos h1] at h2
      exact hacc nm2 h2
    · rw [if_neg h1] at h2
      by_cases hcond : acc.2 < stringSimilarity header f.name ∧
          (1 / 2 : ℚ) ≤ stringSimilarity header f.name
      · rw [if_pos hcond] at h2
        have hnm : f.name = nm2 := by
          simpa using h2
        subst hnm
        exact ⟨h1, hcond.2,
          List.mem_map.mpr ⟨f, hsub f (List.mem_cons_self _ _), rfl⟩⟩
      · rw [if_neg hcond] at h2
        exact hacc nm2 h2

/-- Specification of `bestField`: a returned match is unclaimed, names a
template field, and scored at least 0.5. -/
theorem bestField_spec (header : List Char) (used : List (List Char))
    (tf : List Field) :
    ∀ nm, (bestField header tf used).1 = some nm →
      nm ∉ used ∧ (1 / 2 : ℚ) ≤ stringSimilarity header nm ∧
        nm ∈ tf.map Field.name := by
  intro nm h
  exact bestField_fold_inv header used tf tf (fun _ hf => hf) (none, 0)
    (fun _ hx => by simp at hx) nm h

/-- The invariant of the outer fold of `autoMapFields`: mapped values
lie in the used set, distinct headers map to distinct values, and every
mapped value names a template field with score at least 0.5. -/
theorem autoMap_fold_inv (tf : List Field) :
    ∀ (hs : List (List Char))
      (st : List (List Char × List Char) × List (List Char)),
      ((∀ p ∈ st.1, p.2 ∈ st.2) ∧
       (∀ p ∈ st.1, ∀ q ∈ st.1, p.1 ≠ q.1 → p.2 ≠ q.2) ∧
       (∀ p ∈ st.1, p.2 ∈ tf.map Field.name ∧
         (1 / 2 : ℚ) ≤ stringSimilarity p.1 p.2)) →
      ((∀ p ∈ (hs.foldl (autoMapStep tf) st).1, p.2 ∈ (hs.foldl (autoMapStep tf) st).2) ∧
       (∀ p ∈ (hs.foldl (autoMapStep tf) st).1, ∀ q ∈ (hs.foldl (autoMapStep tf) st).1,
         p.1 ≠ q.1 → p.2 ≠ q.2) ∧
       (∀ p ∈ (hs.foldl (autoMapStep tf) st).1, p.2 ∈ tf.map Field.name ∧
         (1 / 2 : ℚ) ≤ stringSimilarity p.1 p.2)) := by
  intro hs
  induction hs with
  | nil => exact fun st h => h
  | cons hdr t ih =>
    intro st hInv
    apply ih
    unfold autoMapStep
    cases hbf : (bestField hdr tf st.2).1 with
    | none => exact hInv
    | some nm =>
      obtain ⟨hnotused, hsim, hmemname⟩ := bestField_spec hdr st.2 tf nm hbf
      obtain ⟨inv1, inv2, inv3⟩ := hInv
      show ((∀ p ∈ objSet st.1 hdr nm, p.2 ∈ nm :: st.2) ∧
        (∀ p ∈ objSet st.1 hdr nm, ∀ q ∈ objSet st.1 hdr nm, p.1 ≠ q.1 → p.2 ≠ q.2) ∧
        (∀ p ∈ objSet st.1 hdr nm, p.2 ∈ tf.map Field.name ∧
          (1 / 2 : ℚ) ≤ stringSimilarity p.1 p.2))
      refine ⟨?_, ?_, ?_⟩
      · intro p hp
        rcases mem_objSet st.1 hdr nm p hp with hpE | ⟨hpm, _⟩
        · rw [hpE]
          exact List.mem_cons_self _ _
        · exact List.mem_cons_of_mem _ (inv1 p hpm)
      · intro p hp q hq hne
        rcases mem_objSet st.1 hdr nm p hp with hpE | ⟨hpm, hpk⟩ <;>
          rcases mem_objSet st.1 hdr nm q hq with hqE | ⟨hqm, hqk⟩
        · rw [hpE, hqE] at hne
          exact absurd rfl hne
        · rw [hpE]
          intro hEq
          have h2 : nm = q.2 := hEq
          rw [h2] at hnotused
          exact hnotused (inv1 q hqm)
        · rw [hqE]
          intro hEq
          have h2 : p.2 = nm := hEq
          rw [← h2] at hnotused
          exact hnotused (inv1 p hpm)
        · exact inv2 p hpm q hqm hne
      · intro p hp
        rcases mem_objSet st.1 hdr nm p hp with hpE | ⟨hpm, _⟩
        · rw [hpE]
          exact ⟨hmemname, hsim⟩
        · exact inv3 p hpm

/-- C5: `autoMapFields` scores, for each header in input order, only
fields whose names are not yet claimed, assigns the best such field only
at score ≥ 0.5 and claims its name — consequently no two distinct
headers are ever mapped to the same field name in one call, every
mapped value names a template field it scored at least 0.5 against, and
headers with no qualifying field are absent from the result. -/
theorem C5_autoMapFields_injective (dataHeaders : List (List Char))
    (templateFields : List Field) :
    (∀ p ∈ autoMapFields dataHeaders templateFields,
      ∀ q ∈ autoMapFields dataHeaders templateFields, p.1 ≠ q.1 → p.2 ≠ q.2) ∧
    (∀ p ∈ autoMapFields dataHeaders templateFields,
      p.2 ∈ templateFields.map Field.name ∧
        (1 / 2 : ℚ) ≤ stringSimilarity p.1 p.2) := by
  have h := autoMap_fold_inv templateFields dataHeaders ([], [])
    ⟨by simp, by simp, by simp⟩
  exact ⟨h.2.1, h.2.2⟩

/-- Concrete two-field template for the auto-mapping witness. -/
def fieldsW : List Field :=
  [{ name := "Name".data, type := .text },
   { name := "Paid".data, type := .checkbox }]

/-- Headers for the auto-mapping witness. -/
def headersW : List (List Char) := ["Name".data, "Paid".data]

/-- C5 witness: on the concrete headers/fields both claims instantiate;
the two mapped headers received distinct field names and the first
mapping scored at least 0.5 against a real field name. -/
theorem C5_autoMapFields_injective_witness :
    ("Name".data : List Char) ≠ "Paid".data ∧
    ("Name".data ∈ fieldsW.map Field.name ∧
      (1 / 2 : ℚ) ≤ stringSimilarity ("Name".data) "Name".data) :=
  ⟨(C5_autoMapFields_injective headersW fieldsW).1
      ("Name".data, "Name".data) (by with_unfolding_all decide)
      ("Paid".data, "Paid".data) (by with_unfolding_all decide) (by decide),
   (C5_autoMapFields_injective headersW fieldsW).2
      ("Name".data, "Name".data) (by with_unfolding_all decide)⟩

/-- The loop's final job record: `processed` is folded over the
enumerated records (set to `i + 1` exactly on the successes) and
`errors` collects one `{row := i + 1, error}` entry per failing record,
in order; every other job field is untouched by the loop. -/
theorem bulkLoop_final_job (env : RenderEnv) (tf : List Field)
    (fm : List (List Char × List Char)) (ff : Option (List Char)) :
    ∀ (rows : List Record) (i : Nat) (st : BulkState),
      (bulkLoop env tf fm ff i rows st).1.job =
        { st.job with
            processed := (List.enumFrom i rows).foldl (fun acc p =>
              if (generateSinglePDF env tf p.2 fm).isOk then p.1 + 1 else acc)
              st.job.processed,
            errors := st.job.errors ++ (List.enumFrom i rows).filterMap (fun p =>
              match generateSinglePDF env tf p.2 fm with
              | .error e => some ⟨p.1 + 1, e⟩
              | .ok _ => none) } := by
  intro rows
  induction rows with
  | nil =>
    intro i st
    simp [bulkLoop, List.enumFrom]
  | cons row rest ih =>
    intro i st
    simp only [bulkLoop]
    rw [ih]
    unfold recordStep
    cases hg : generateSinglePDF env tf row fm with
    | ok buf => simp [hg, List.enumFrom, Except.isOk, Except.toBool]
    | error e => simp [hg, List.enumFrom, Except.isOk, Except.toBool]

/-- What one `recordStep` does to the job: status, total and the other
administrative fields are untouched; `processed` becomes `i + 1` or
stays. -/
theorem recordStep_job (env : RenderEnv) (tf : List Field)
    (fm : List (List Char × List Char)) (ff : Option (List Char))
    (i : Nat) (row : Record) (st : BulkState) :
    (recordStep env tf fm ff i row st).job.status = st.job.status ∧
    (recordStep env tf fm ff i row st).job.total = st.job.total ∧
    ((recordStep env tf fm ff i row st).job.processed = i + 1 ∨
      (recordStep env tf fm ff i row st).job.processed = st.job.processed) := by
  unfold recordStep
  cases hg : generateSinglePDF env tf row fm with
  | ok buf => exact ⟨rfl, rfl, Or.inl rfl⟩
  | error e => exact ⟨rfl, rfl, Or.inr rfl⟩

/-- Bounds carried by every snapshot the loop records and by its final
state: the status and total never change, and `processed` never exceeds
`max` of its starting value and the index range covered. -/
theorem bulkLoop_snapshots (env : RenderEnv) (tf : List Field)
    (fm : List (List Char × List Char)) (ff : Option (List Char)) :
    ∀ (rows : List Record) (i : Nat) (st : BulkState),
      (∀ j ∈ (bulkLoop env tf fm ff i rows st).2,
        j.status = st.job.status ∧ j.total = st.job.total ∧
        j.processed ≤ max st.job.processed (i + rows.length)) ∧
      (bulkLoop env tf fm ff i rows st).1.job.status = st.job.status ∧
      (bulkLoop env tf fm ff i rows st).1.job.total = st.job.total ∧
      (bulkLoop env tf fm ff i rows st).1.job.processed
        ≤ max st.job.processed (i + rows.length) := by
  intro rows
  induction rows with
  | nil =>
    intro i st
    refine ⟨by simp [bulkLoop], by simp [bulkLoop], by simp [bulkLoop], ?_⟩
    simp [bulkLoop]
  | cons row rest ih =>
    intro i st
    obtain ⟨hst, htot, hproc⟩ := recordStep_job env tf fm ff i row st
    have hstep : (recordStep env tf fm ff i row st).job.processed
        ≤ max st.job.processed (i + (row :: rest).length) := by
      rcases hproc with h | h <;> rw [h] <;> simp
    obtain ⟨ihsnap, ihst, ihtot, ihproc⟩ :=
      ih (i + 1) (recordStep env tf fm ff i row st)
    have hbound : max (recordStep env tf fm ff i row st).job.processed
        (i + 1 + rest.length) ≤ max st.job.processed (i + (row :: rest).length) := by
      simp only [List.length_cons]
      rcases hproc with h | h <;> rw [h] <;> omega
    refine ⟨?_, ?_, ?_, ?_⟩
    · intro j hj
      simp only [bulkLoop, List.mem_cons] at hj
      rcases hj with rfl | hj
      · exact ⟨hst, htot, hstep⟩
      · obtain ⟨h1, h2, h3⟩ := ihsnap j hj
        exact ⟨h1.trans hst, h2.trans htot, h3.trans hbound⟩
    · simp only [bulkLoop]
      exact ihst.trans hst
    · simp only [bulkLoop]
      exact ihtot.trans htot
    · simp only [bulkLoop]
      exact ihproc.trans hbound

/-- The relation `statusForward` holds from any snapshot still in `processing`. -/
theorem statusForward_of_processing (j k : Job) (h : j.status = .processing) :
    statusForward j k := by
  by_cases hk : k.status = .processing
  · exact Or.inl (h.trans hk.symm)
  · exact Or.inr ⟨h, hk⟩

/-- A run of snapshots that are all still `processing` is a valid
forward chain. -/
theorem chain_of_processing (l : List Job) (h : ∀ j ∈ l, j.status = .processing) :
    List.Chain' statusForward l := by
  induction l with
  | nil => exact List.chain'_nil
  | cons a t ih =>
    rw [List.chain'_cons']
    refine ⟨?_, ih (fun j hj => h j (List.mem_cons_of_mem _ hj))⟩
    intro y hy
    exact statusForward_of_processing a y (h a (List.mem_cons_self _ _))

/-- Facts about the aggregation-tail snapshots: their `processed`,
`total` and `errors` fields equal the loop-final job's, and starting
from `processing` their statuses form a forward chain. -/
theorem finishSnapshots_facts (env : RenderEnv) (merge : Bool) (jobId : List Char)
    (st : BulkState) (h : st.job.status = .processing) :
    (∀ j ∈ finishSnapshots env merge jobId st,
      j.processed = st.job.processed ∧ j.total = st.job.total) ∧
    List.Chain' statusForward (finishSnapshots env merge jobId st) ∧
    finishSnapshots env merge jobId st ≠ [] := by
  unfold finishSnapshots
  by_cases hagg : env.aggregateOk = true
  · rw [if_pos hagg]
    refine ⟨?_, ?_, by simp⟩
    · intro j hj
      simp only [List.mem_cons, List.not_mem_nil, or_false] at hj
      rcases hj with rfl | rfl | rfl <;> exact ⟨rfl, rfl⟩
    · refine List.Chain'.cons (Or.inl rfl) (List.Chain'.cons ?_ (List.chain'_singleton _))
      exact Or.inr ⟨h, by simp⟩
  · rw [if_neg hagg]
    refine ⟨?_, ?_, by simp⟩
    · intro j hj
      simp only [List.mem_cons, List.not_mem_nil, or_false] at hj
      rcases hj with rfl | rfl <;> exact ⟨rfl, rfl⟩
    · exact List.Chain'.cons (Or.inl rfl) (List.chain'_singleton _)

/-- C1 counterexample: a one-record job whose record throws during
rendering finishes with `processed = 0`, not 1 — `job.processed = i + 1`
sits inside the per-record `try`, after the render, so it does not
advance on a failed record. -/
theorem C1_counterexample_processed :
    (generateBulkPDFs envArrow ("cj1".data) (some [fText]) [rowArrow]
        mapNameSig {}).processed = 0 ∧
    (generateBulkPDFs envArrow ("cj1".data) (some [fText]) [rowArrow]
        mapNameSig {}).total = 1 ∧
    ¬(generateBulkPDFs envArrow ("cj1".data) (some [fText]) [rowArrow]
        mapNameSig {}).processed = 1 := by
  refine ⟨?_, rfl, ?_⟩
  · rfl
  · intro h
    exact absurd h (by decide)

/-- Upper bound for the processed-counter fold: it never exceeds its
starting value or the end of the index range covered. -/
theorem foldl_processed_le (env : RenderEnv) (tf : List Field)
    (fm : List (List Char × List Char)) :
    ∀ (rows : List Record) (i p0 : Nat),
      (List.enumFrom i rows).foldl (fun acc p =>
        if (generateSinglePDF env tf p.2 fm).isOk then p.1 + 1 else acc) p0
        ≤ max p0 (i + rows.length) := by
  intro rows
  induction rows with
  | nil =>
    intro i p0
    simp [List.enumFrom]
  | cons r rest ih =>
    intro i p0
    show (List.enumFrom (i + 1) rest).foldl _
      (if (generateSinglePDF env tf r fm).isOk then i + 1 else p0) ≤ _
    refine (ih (i + 1) _).trans ?_
    by_cases hok : (generateSinglePDF env tf r fm).isOk = true <;>
      simp only [hok, if_true, if_false, ite_true, ite_false,
        List.length_cons, Bool.false_eq_true] <;> omega

/-- The processed-counter fold over a list ending in `lastR`: the last
record decides whether the counter lands at the full length. -/
theorem foldl_processed_snoc (env : RenderEnv) (tf : List Field)
    (fm : List (List Char × List Char)) (initRows : List Record) (lastR : Record) :
    (List.enumFrom 0 (initRows ++ [lastR])).foldl (fun acc p =>
        if (generateSinglePDF env tf p.2 fm).isOk then p.1 + 1 else acc) 0
      = if (generateSinglePDF env tf lastR fm).isOk then initRows.length + 1
        else (List.enumFrom 0 initRows).foldl (fun acc p =>
          if (generateSinglePDF env tf p.2 fm).isOk then p.1 + 1 else acc) 0 := by
  rw [List.enumFrom_append, List.foldl_append]
  by_cases hok : (generateSinglePDF env tf lastR fm).isOk = true <;>
    simp [List.enumFrom, hok]

/-- C1 (amended): `processed` is set to `i + 1` only when record `i`
renders successfully; after the loop it equals the fold of the successes
over the enumerated records — one plus the index of the last successful
record, or 0 when none succeeded. It therefore equals the number of
input records exactly when the last record rendered successfully, not
whenever some records failed. -/
theorem C1_processed_counts_successes (env : RenderEnv) (jobId : List Char)
    (tf : List Field) (rows : List Record)
    (fm : List (List Char × List Char)) (opts : BulkOptions) :
    ((generateBulkPDFs env jobId (some tf) rows fm opts).processed
      = (List.enumFrom 0 rows).foldl (fun acc p =>
          if (generateSinglePDF env tf p.2 fm).isOk then p.1 + 1 else acc) 0) ∧
    (∀ (h : rows ≠ []),
      ((generateBulkPDFs env jobId (some tf) rows fm opts).processed = rows.length
        ↔ (generateSinglePDF env tf (rows.getLast h) fm).isOk = true)) := by
  have hloop := bulkLoop_final_job env tf fm opts.filenameField rows 0
    ⟨initialJob jobId rows.length, [], []⟩
  have hfold : (generateBulkPDFs env jobId (some tf) rows fm opts).processed
      = (List.enumFrom 0 rows).foldl (fun acc p =>
          if (generateSinglePDF env tf p.2 fm).isOk then p.1 + 1 else acc) 0 := by
    unfold generateBulkPDFs finishJob
    by_cases hagg : env.aggregateOk = true
    · simp only [hagg, if_true, ite_true]
      rw [hloop]
      rfl
    · simp only [hagg, if_false, ite_false, Bool.false_eq_true]
      rw [hloop]
      rfl
  refine ⟨hfold, fun h => ?_⟩
  rw [hfold]
  have hsplit := List.dropLast_append_getLast h
  constructor
  · intro hEq
    by_contra hnok
    have h2 : (List.enumFrom 0 rows).foldl (fun acc p =>
        if (generateSinglePDF env tf p.2 fm).isOk then p.1 + 1 else acc) 0
        = (List.enumFrom 0 rows.dropLast).foldl (fun acc p =>
          if (generateSinglePDF env tf p.2 fm).isOk then p.1 + 1 else acc) 0 := by
      conv_lhs => rw [← hsplit]
      rw [foldl_processed_snoc, if_neg hnok]
    have h3 := foldl_processed_le env tf fm rows.dropLast 0 0
    have h4 : rows.dropLast.length = rows.length - 1 := by
      simp [List.length_dropLast]
    have h5 : 1 ≤ rows.length := by
      cases rows with
      | nil => exact absurd rfl h
      | cons a t => simp
    rw [h2] at hEq
    omega
  · intro hok
    conv_lhs => rw [← hsplit]
    rw [foldl_processed_snoc, if_pos hok, ← hsplit]
    simp

/-- C1 witness: the amended characterization applied to a concrete
two-record job whose first record fails and whose last succeeds —
`processed` ends at the full length. -/
theorem C1_processed_counts_successes_witness :
    (generateBulkPDFs envArrow ("w1".data) (some [fText]) [rowArrow, rowAlice]
        mapNameSig {}).processed = 2 :=
  ((C1_processed_counts_successes envArrow ("w1".data) [fText]
      [rowArrow, rowAlice] mapNameSig {}).2 (List.cons_ne_nil _ _)).mpr (by decide)

/-- C2 counterexample: in the three-record job where exactly one record
carries an undecodable `data:image` signature, the error list is empty —
not of length 1 — because `drawSignature` catches the embed failure
itself and never rethrows, so nothing reaches the job's error list. -/
theorem C2_counterexample_signature_error_list :
    (generateBulkPDFs envPlain ("cj2".data) (some [fText, fSig])
        [rowAlice, rowBobBadSig, rowCarol] mapNameSig {}).errors = [] ∧
    ¬(generateBulkPDFs envPlain ("cj2".data) (some [fText, fSig])
        [rowAlice, rowBobBadSig, rowCarol] mapNameSig {}).errors.length = 1 := by
  refine ⟨rfl, ?_⟩
  intro h
  rw [show (generateBulkPDFs envPlain ("cj2".data) (some [fText, fSig])
    [rowAlice, rowBobBadSig, rowCarol] mapNameSig {}).errors = [] from rfl] at h
  exact absurd h (by decide)

/-- C2 (amended): for the bulk job over three records where exactly one
record carries an undecodable signature data-URI and the other two
render normally, the job terminates with status `completed` and
`processed = 3`, but its error list is empty: the signature-embed
failure is swallowed inside `drawSignature` (logged to the console only)
and is never recorded as a per-row error. -/
theorem C2_undecodable_signature_job :
    (generateBulkPDFs envPlain ("cj2a".data) (some [fText, fSig])
        [rowAlice, rowBobBadSig, rowCarol] mapNameSig {}).status = .completed ∧
    (generateBulkPDFs envPlain ("cj2a".data) (some [fText, fSig])
        [rowAlice, rowBobBadSig, rowCarol] mapNameSig {}).errors = [] ∧
    (generateBulkPDFs envPlain ("cj2a".data) (some [fText, fSig])
        [rowAlice, rowBobBadSig, rowCarol] mapNameSig {}).processed = 3 :=
  ⟨rfl, rfl, rfl⟩

/-- C3: when rendering of record `i` (0-based) throws, the error is
caught and recorded as `{row := i + 1, error}` in order, every record is
still attempted (the error list is exactly the filter of the failures
over all enumerated records), and per-record errors alone never make the
terminal status `error`: provided the aggregation step itself does not
throw, the job completes. -/
theorem C3_per_record_errors (env : RenderEnv) (jobId : List Char)
    (tf : List Field) (rows : List Record)
    (fm : List (List Char × List Char)) (opts : BulkOptions)
    (hAgg : env.aggregateOk = true) :
    (generateBulkPDFs env jobId (some tf) rows fm opts).status = .completed ∧
    (generateBulkPDFs env jobId (some tf) rows fm opts).errors
      = (List.enumFrom 0 rows).filterMap (fun p =>
          match generateSinglePDF env tf p.2 fm with
          | .error e => some ⟨p.1 + 1, e⟩
          | .ok _ => none) := by
  have hloop := bulkLoop_final_job env tf fm opts.filenameField rows 0
    ⟨initialJob jobId rows.length, [], []⟩
  unfold generateBulkPDFs finishJob
  simp only [hAgg, if_true, ite_true]
  refine ⟨by simp, ?_⟩
  rw [hloop]
  simp [initialJob]

/-- C3 witness: a two-record job whose first record throws (unencodable
text) still completes, with exactly that row recorded. -/
theorem C3_per_record_errors_witness :
    (generateBulkPDFs envArrow ("w3".data) (some [fText]) [rowArrow, rowAlice]
        mapNameSig {}).status = .completed ∧
    (generateBulkPDFs envArrow ("w3".data) (some [fText]) [rowArrow, rowAlice]
        mapNameSig {}).errors
      = (List.enumFrom 0 [rowArrow, rowAlice]).filterMap (fun p =>
          match generateSinglePDF envArrow [fText] p.2 mapNameSig with
          | .error e => some ⟨p.1 + 1, e⟩
          | .ok _ => none) :=
  C3_per_record_errors envArrow ("w3".data) [fText] [rowArrow, rowAlice]
    mapNameSig {} rfl

/-- C4: along the full mutation trace of a bulk job, `processed ≤ total`
holds at every point, the trace starts at the freshly registered job
(status `processing`), and consecutive snapshots satisfy the
forward-only status relation — so the status changes at most once,
leaving `processing` for `completed` or `error` and never moving again
(in particular never back to `processing` and never between `completed`
and `error`). -/
theorem C4_job_status_invariants (env : RenderEnv) (jobId : List Char)
    (templateFields? : Option (List Field)) (dataRows : List Record)
    (fieldMapping : List (List Char × List Char)) (opts : BulkOptions) :
    (bulkTrace env jobId templateFields? dataRows fieldMapping opts).head?
        = some (initialJob jobId dataRows.length) ∧
    ((bulkTrace env jobId templateFields? dataRows fieldMapping opts).all
        (fun j => decide (j.processed ≤ j.total))) = true ∧
    List.Chain' statusForward
      (bulkTrace env jobId templateFields? dataRows fieldMapping opts) := by
  cases templateFields? with
  | none =>
    refine ⟨rfl, by simp [bulkTrace, initialJob], ?_⟩
    simp only [bulkTrace]
    exact List.Chain'.cons (Or.inr ⟨rfl, by simp⟩)
      (List.Chain'.cons (Or.inl rfl) (List.chain'_singleton _))
  | some tf =>
    have hsnap := bulkLoop_snapshots env tf fieldMapping opts.filenameField
      dataRows 0 ⟨initialJob jobId dataRows.length, [], []⟩
    obtain ⟨hsnaps, hfst, hftot, hfproc⟩ := hsnap
    have hfin := finishSnapshots_facts env opts.merge jobId
      (bulkLoop env tf fieldMapping opts.filenameField 0 dataRows
        ⟨initialJob jobId dataRows.length, [], []⟩).1 hfst
    obtain ⟨hfinmem, hfinchain, hfinne⟩ := hfin
    refine ⟨rfl, ?_, ?_⟩
    · rw [List.all_eq_true]
      intro j hj
      rw [decide_eq_true_eq]
      simp only [bulkTrace, List.mem_cons, List.mem_append] at hj
      rcases hj with (rfl | hj) | hj
      · exact Nat.zero_le _
      · obtain ⟨_, h2, h3⟩ := hsnaps j hj
        rw [h2]
        calc j.processed ≤ max 0 (0 + dataRows.length) := h3
          _ = dataRows.length := by omega
          _ = (initialJob jobId dataRows.length).total := rfl
      · obtain ⟨h1, h2⟩ := hfinmem j hj
        rw [h1, h2, hftot]
        calc (bulkLoop env tf fieldMapping opts.filenameField 0 dataRows
              ⟨initialJob jobId dataRows.length, [], []⟩).1.job.processed
            ≤ max 0 (0 + dataRows.length) := hfproc
          _ = dataRows.length := by omega
          _ = (initialJob jobId dataRows.length).total := rfl
    · simp only [bulkTrace]
      rw [show (initialJob jobId dataRows.length
            :: (bulkLoop env tf fieldMapping opts.filenameField 0 dataRows
                ⟨initialJob jobId dataRows.length, [], []⟩).2)
          ++ finishSnapshots env opts.merge jobId
            (bulkLoop env tf fieldMapping opts.filenameField 0 dataRows
              ⟨initialJob jobId dataRows.length, [], []⟩).1
          = (initialJob jobId dataRows.length
            :: (bulkLoop env tf fieldMapping opts.filenameField 0 dataRows
                ⟨initialJob jobId dataRows.length, [], []⟩).2)
          ++ finishSnapshots env opts.merge jobId
            (bulkLoop env tf fieldMapping opts.filenameField 0 dataRows
              ⟨initialJob jobId dataRows.length, [], []⟩).1 from rfl]
      rw [List.chain'_append]
      refine ⟨?_, hfinchain, ?_⟩
      · apply chain_of_processing
        intro j hj
        rcases List.mem_cons.mp hj with rfl | hj
        · rfl
        · exact (hsnaps j hj).1
      · intro x hx y hy
        apply statusForward_of_processing
        have hxmem : x ∈ initialJob jobId dataRows.length
            :: (bulkLoop env tf fieldMapping opts.filenameField 0 dataRows
              ⟨initialJob jobId dataRows.length, [], []⟩).2 :=
          List.mem_of_mem_getLast? hx
        rcases List.mem_cons.mp hxmem with rfl | hxm
        · rfl
        · exact (hsnaps x hxm).1

/-- Last element of a cons-append list with a nonempty tail list. -/
theorem getLastD_cons_append {α : Type} (a : α) (l1 l2 : List α) (d : α)
    (h : l2 ≠ []) : (a :: (l1 ++ l2)).getLastD d = l2.getLastD d := by
  rw [List.getLastD_cons, List.getLastD_eq_getLast?, List.getLastD_eq_getLast?,
    List.getLast?_append_of_ne_nil l1 h]
  cases hl : l2.getLast? with
  | none => exact absurd (List.getLast?_eq_none_iff.mp hl) h
  | some x => rfl

/-- The aggregation tail always records at least one snapshot. -/
theorem finishSnapshots_ne_nil (env : RenderEnv) (merge : Bool)
    (jobId : List Char) (st : BulkState) :
    finishSnapshots env merge jobId st ≠ [] := by
  unfold finishSnapshots
  by_cases hagg : env.aggregateOk = true <;> simp [hagg]

/-- The last snapshot of the aggregation tail is exactly the job record
that finishJob produces. -/
theorem finishSnapshots_getLastD (env : RenderEnv) (merge : Bool)
    (jobId : List Char) (st : BulkState) (d : Job) :
    (finishSnapshots env merge jobId st).getLastD d
      = finishJob env merge jobId st := by
  unfold finishSnapshots finishJob
  by_cases hagg : env.aggregateOk = true <;> simp [hagg]

/-- The mutation-trace model and the returned job agree: the last
snapshot of bulkTrace is exactly the job record generateBulkPDFs
returns, so the C4 invariants proved over the trace cover the job the
caller observes. -/
theorem bulkTrace_getLastD (env : RenderEnv) (jobId : List Char)
    (templateFields? : Option (List Field)) (dataRows : List Record)
    (fieldMapping : List (List Char × List Char)) (opts : BulkOptions) :
    (bulkTrace env jobId templateFields? dataRows fieldMapping opts).getLastD
        (initialJob jobId dataRows.length)
      = generateBulkPDFs env jobId templateFields? dataRows fieldMapping opts := by
  cases templateFields? with
  | none => rfl
  | some tf =>
    simp only [bulkTrace, generateBulkPDFs]
    rw [List.cons_append, getLastD_cons_append _ _ _ _
        (finishSnapshots_ne_nil env opts.merge jobId _),
      finishSnapshots_getLastD]

/-- drawSignature never throws on a string value: the failure modes a
string can hit (no data-image prefix, missing comma payload, bytes that
neither embedder accepts) are all swallowed by the early returns or the
internal try/catch, so only a truthy non-string value can raise. -/
theorem drawSignatureM_string_no_throw (env : RenderEnv) (f : Field)
    (s : List Char) (hval : f.value = JSValue.str s) :
    (drawSignatureM env f).isOk = true := by
  unfold drawSignatureM
  rw [hval]
  repeat' split
  all_goals rfl

/-- Witness for the no-throw lemma at a concrete field: a string
signature value with a valid prefix but undecodable bytes still renders
without error. -/
theorem drawSignatureM_string_no_throw_witness :
    (drawSignatureM envPlain
      { fSig with value := JSValue.str ("data:image/png;base64,zz".data) }).isOk
      = true :=
  drawSignatureM_string_no_throw envPlain
    { fSig with value := JSValue.str ("data:image/png;base64,zz".data) }
    ("data:image/png;base64,zz".data) rfl

end BulkPdf
